import Mathlib

/-!
Verification of the apigee-sync Azure export / offramp pipeline.

Shallow embedding of the Go sources:
  * the Azure data model and `azureExport` / `azureOfframp` (src/unnamed/part_000),
  * the web-service sync handler `apimSync` (src/webserver.go).

Modelling conventions:
  * Go strings are `Str := List Char`; a Go string literal `"x"` is written
    `"x".data`.  `strings.HasSuffix s t` is the list relation `t <:+ s`,
    `strings.Contains s t` is `t <:+: s`.
  * Filesystem paths are lists of components (`Path := List Str`); Go joins
    components with `"/"`.  The staging filesystem is an association list from
    paths to file contents.  `os.WriteFile` replaces any entry at the path,
    `os.Open` succeeds when the path is a file or a directory (a directory
    exists when some file lies strictly below it; empty directories created by
    `os.MkdirAll` alone are not modelled, no claim depends on them).
  * A staged file's content is the structured value the Go code marshals;
    `json.Unmarshal` of a payload of a different shape into an `AzureApi`
    yields the zero value (none of the pipeline's own payload shapes shares a
    top-level `name` string field with `AzureApi`).
  * Network access is explicit: the management-API responses (`apis`,
    `schemas`) are parameters giving the payload each request would return,
    and an export records every management-API request it actually performs.
    Token acquisition (`getAzureToken`, environment variables) is the external
    TokenProvider capability and is passed as a function parameter.
  * `log.Fatal` (process abort) is `Option.none`.
-/

abbrev Str := List Char

abbrev FPath := List Str

/-- `AzureServiceProperties` from src/unnamed/part_000. -/
structure AzureServiceProperties where
  DeveloperPortalUrl : Str
  GatewayUrl : Str
  GatewayRegionalUrl : Str
  PortalUrl : Str
  PublisherEmail : Str
  PublisherName : Str
deriving DecidableEq, Inhabited, Repr

/-- `AzureService` from src/unnamed/part_000. -/
structure AzureService where
  Id : Str
  Name : Str
  Location : Str
  Properties : AzureServiceProperties
deriving DecidableEq, Inhabited, Repr

/-- `AzureApiAuthenticationSettings` from src/unnamed/part_000. -/
structure AzureApiAuthenticationSettings where
  OAuth2 : Str
  OpenId : Str
  OAuth2AuthenticationSettings : List Str
  OpenIdAuthenticationSettings : List Str
deriving DecidableEq, Inhabited, Repr

/-- `AzureApiSubscriptionKeyParameterNames` from src/unnamed/part_000. -/
structure AzureApiSubscriptionKeyParameterNames where
  Header : Str
  Query : Str
deriving DecidableEq, Inhabited, Repr

/-- `AzureApiProperties` from src/unnamed/part_000. -/
structure AzureApiProperties where
  DisplayName : Str
  ApiRevision : Str
  Description : Str
  SubscriptionRequired : Str
  ServiceUrl : Str
  BackendId : Str
  Path : Str
  Protocols : List Str
  AuthenticationSettings : AzureApiAuthenticationSettings
  SubscriptionKeyParameterNames : AzureApiSubscriptionKeyParameterNames
  IsCurrent : Bool
  ApiRevisionDescription : Str
  ApiVersion : Str
deriving DecidableEq, Inhabited, Repr

/-- `AzureApi` from src/unnamed/part_000. -/
structure AzureApi where
  Id : Str
  Type_ : Str
  Name : Str
  Properties : AzureApiProperties
deriving DecidableEq, Inhabited, Repr

/-- `AzureApis` from src/unnamed/part_000. -/
structure AzureApis where
  Value : List AzureApi
deriving DecidableEq, Inhabited, Repr

/-- `AzureApiSchemaProperties` from src/unnamed/part_000. -/
structure AzureApiSchemaProperties where
  Description : Str
  SchemaType : Str
  Document : Str
deriving DecidableEq, Inhabited, Repr

/-- `AzureApiSchema` from src/unnamed/part_000. -/
structure AzureApiSchema where
  Id : Str
  Type_ : Str
  Name : Str
  Properties : AzureApiSchemaProperties
deriving DecidableEq, Inhabited, Repr

/-- `AzureFlags` from src/unnamed/part_000. -/
structure AzureFlags where
  Subscription : Str
  ResourceGroup : Str
  ServiceName : Str
  Token : Str
  ApiName : Str
  OnlyNew : Bool
deriving DecidableEq, Inhabited, Repr

/-- The `GeneralApi` (canonical) record.  Its declaration lives outside the
visible slice; the fields are exactly those assigned by `azureOfframp`
(src/unnamed/part_000 lines 460-473) and described by the spec's CanonicalApi
data model. -/
structure GeneralApi where
  Name : Str
  DisplayName : Str
  Description : Str
  Version : Str
  OwnerEmail : Str
  OwnerName : Str
  DocumentationUrl : Str
  GatewayUrl : Str
  BasePath : Str
  PlatformId : Str
  PlatformName : Str
  PlatformResourceUri : Str
deriving DecidableEq, Inhabited, Repr

/-- Structured content of a staged file: the value whose JSON rendering the Go
code writes at that path. -/
inductive FileContent where
  | api (a : AzureApi)
  | schemaDef (s : AzureApiSchema)
  | doc (text : Str)
  | general (g : GeneralApi)
  | service (s : AzureService)
deriving DecidableEq, Inhabited, Repr

/-- The staging filesystem: an association list from paths to contents. -/
abbrev FS := List (FPath × FileContent)

/-- Read the file at `p` (first entry with that path). -/
def fsRead (fs : FS) (p : FPath) : Option FileContent :=
  match fs with
  | [] => none
  | e :: t => if e.1 = p then some e.2 else fsRead t p

/-- `os.WriteFile`: replace whatever is at `p` with content `c`. -/
def fsWrite (fs : FS) (p : FPath) (c : FileContent) : FS :=
  match fs with
  | [] => [(p, c)]
  | e :: t => if e.1 = p then fsWrite t p c else e :: fsWrite t p c

/-- A directory exists when some file lies strictly below it. -/
def dirExists (fs : FS) (p : FPath) : Bool :=
  fs.any (fun e => decide (p <+: e.1) && decide (e.1 ≠ p))

/-- `os.Open` succeeds on a file or a directory. -/
def canOpen (fs : FS) (p : FPath) : Bool :=
  (fsRead fs p).isSome || dirExists fs p

/-- `os.ReadDir dir`: the names of the immediate children of `dir`
(deduplicated; the on-disk sort order is immaterial to every claim). -/
def childrenOf (fs : FS) (dir : FPath) : List Str :=
  (fs.filterMap (fun e =>
    if dir <+: e.1 then (e.1.drop dir.length).head? else none)).dedup

/-! ### Name normalization (src/unnamed/part_000, azureExport lines 285-296) -/

/-- The revision marker `";rev="` (line 282). -/
def revMarker : Str := ";rev=".data

/-- `regexp.MustCompile("(-v\\d+)$").ReplaceAllString(name, "")` (lines
285-286).  The anchored pattern can match only the maximal run of trailing
digits together with a `"-v"` immediately before it (a digit run reaching the
end of the string cannot contain `'-'` or `'v'`), so the replacement removes
exactly that suffix when it is present and at least one digit long. -/
def stripVersionSuffix (s : Str) : Str :=
  match s.reverse.dropWhile Char.isDigit with
  | c1 :: c2 :: r =>
    if c1 = 'v' ∧ c2 = '-' ∧ s.reverse.takeWhile Char.isDigit ≠ [] then
      r.reverse
    else s
  | _ => s

/-- The name-qualification rule of lines 288-289: append `"-" + versionTag`
unless the tag is empty or the name already ends with it. -/
def qualify (name versionTag : Str) : Str :=
  if versionTag ≠ [] ∧ ¬ (versionTag <:+ name) then
    name ++ "-".data ++ versionTag
  else name

/-- Lines 285-296: the in-place mutation of the loop's `api` copy.  When the
raw name lacks the version suffix, both the name and the display name are
extended (lines 289-291); afterwards the display name is extended once more if
it still does not end with the version tag (lines 294-296). -/
def qualifyApi (api : AzureApi) : AzureApi :=
  let ver := api.Properties.ApiVersion
  let api1 :=
    if ver ≠ [] ∧ ¬ (ver <:+ api.Name) then
      { api with
          Name := api.Name ++ "-".data ++ ver,
          Properties := { api.Properties with
            DisplayName := api.Properties.DisplayName ++ " ".data ++ ver } }
    else api
  if ver ≠ [] ∧ ¬ (ver <:+ api1.Properties.DisplayName) then
    { api1 with
        Properties := { api1.Properties with
          DisplayName := api1.Properties.DisplayName ++ " ".data ++ ver } }
  else api1

/-- The display name produced by the qualification block, for the claims about
`qualifiedDisplayName`. -/
def qualifiedDisplayName (api : AzureApi) : Str :=
  (qualifyApi api).Properties.DisplayName

/-! ### The Azure export (src/unnamed/part_000, azureExport lines 239-322) -/

/-- `baseDir = "src/main/azure/apiproxies"` (line 240). -/
def azureApiproxiesDir : FPath :=
  ["src".data, "main".data, "azure".data, "apiproxies".data]

/-- `baseDir = "src/main/general/apiproxies"` (line 411). -/
def generalApiproxiesDir : FPath :=
  ["src".data, "main".data, "general".data, "apiproxies".data]

/-- `"src/main/azure"` (line 182), the directory holding the service-metadata
file; `azureOfframp` reaches it as `azureBaseDir + "/../"` (line 433), which
the OS resolves to the parent of the apiproxies directory. -/
def azureServiceDir : FPath := ["src".data, "main".data, "azure".data]

/-- The service-metadata file `azureBaseDir + "/../" + flags.ServiceName +
".json"` read by `azureOfframp` (line 433). -/
def azureServicePath (flags : AzureFlags) : FPath :=
  azureServiceDir ++ [flags.ServiceName ++ ".json".data]

/-- A management-API request performed by the export (the token endpoint is
the external TokenProvider, see the header comment). -/
inductive NetRequest where
  | listApis (subscription resourceGroup serviceName token : Str)
  | getSchema (subscription resourceGroup serviceName apiName token : Str)
deriving DecidableEq, Repr

/-- The observable outcome of `azureExport`: the returned list of names, the
staging filesystem, and the management-API requests performed. -/
structure ExportState where
  exported : List Str
  fs : FS
  requests : List NetRequest
deriving DecidableEq, Repr

/-- The per-API guard of line 282: the name filter and the revision filter. -/
def filterPass (flags : AzureFlags) (api : AzureApi) : Prop :=
  (flags.ApiName = [] ∨ flags.ApiName = api.Name) ∧ ¬ (revMarker <:+: api.Name)

instance instDecFilterPass (flags : AzureFlags) (api : AzureApi) :
    Decidable (filterPass flags api) := by
  unfold filterPass; exact inferInstance

/-- One iteration of the export loop (lines 281-317).  `schemas` maps an API
name to the payload the schema endpoint would return for it. -/
def exportApi (flags : AzureFlags) (schemas : Str → AzureApiSchema)
    (token : Str) (st : ExportState) (api : AzureApi) : ExportState :=
  if filterPass flags api then
    let newName := stripVersionSuffix api.Name
    let api2 := qualifyApi api
    let newApiName := qualify api.Name api.Properties.ApiVersion
    let fileExists :=
      canOpen st.fs (azureApiproxiesDir ++ [newName, api2.Name ++ ".json".data])
    if (flags.OnlyNew = true ∧ fileExists = false) ∨ flags.OnlyNew = false then
      let fs1 := fsWrite st.fs
        (azureApiproxiesDir ++ [newName, newApiName ++ ".json".data])
        (.api api2)
      let schema := schemas newApiName
      let fs2 :=
        if schema.Id ≠ [] then
          fsWrite
            (fsWrite fs1
              (azureApiproxiesDir ++
                [newName, newApiName ++ "-oas-definition.json".data])
              (.schemaDef schema))
            (azureApiproxiesDir ++
              [newName, newApiName ++ "-oas.".data ++ schema.Properties.SchemaType])
            (.doc schema.Properties.Document)
        else fs1
      { exported := st.exported ++ [api2.Name],
        fs := fs2,
        requests := st.requests ++
          [.getSchema flags.Subscription flags.ResourceGroup flags.ServiceName
            newApiName token] }
    else st
  else st

/-- Token resolution of lines 241-275: the flag token, else the `AZURE_TOKEN`
environment variable, else client credentials through the TokenProvider;
`none` when every route fails (the function then returns an empty list). -/
def resolveToken (flags : AzureFlags) (env : Str → Str)
    (getAzureToken : Str → Str → Str → Str) : Option Str :=
  if flags.Token ≠ [] then some flags.Token
  else if env "AZURE_TOKEN".data ≠ [] then some (env "AZURE_TOKEN".data)
  else if env "AZURE_CLIENT_ID".data = [] ∨ env "AZURE_CLIENT_SECRET".data = [] ∨
      env "AZURE_TENANT_ID".data = [] then none
  else if getAzureToken (env "AZURE_CLIENT_ID".data)
      (env "AZURE_CLIENT_SECRET".data) (env "AZURE_TENANT_ID".data) = [] then none
  else some (getAzureToken (env "AZURE_CLIENT_ID".data)
      (env "AZURE_CLIENT_SECRET".data) (env "AZURE_TENANT_ID".data))

/-- `azureExport` (lines 239-322).  `apis` is the payload the list endpoint
would return, recorded as a request when actually fetched (line 278). -/
def azureExport (flags : AzureFlags) (env : Str → Str)
    (getAzureToken : Str → Str → Str → Str) (apis : AzureApis)
    (schemas : Str → AzureApiSchema) (fs : FS) : ExportState :=
  if flags.Subscription = [] then ⟨[], fs, []⟩
  else if flags.ResourceGroup = [] then ⟨[], fs, []⟩
  else if flags.ServiceName = [] then ⟨[], fs, []⟩
  else
    match resolveToken flags env getAzureToken with
    | none => ⟨[], fs, []⟩
    | some token =>
      apis.Value.foldl (exportApi flags schemas token)
        ⟨[], fs,
          [.listApis flags.Subscription flags.ResourceGroup flags.ServiceName
            token]⟩

/-! ### The Azure offramp (src/unnamed/part_000, azureOfframp lines 408-496) -/

/-- Lines 449-457: open and unmarshal an API file.  An unreadable path is
`none` (the Go code `log.Fatal`s there); opening a directory succeeds and the
subsequent read yields no bytes, so the unmarshal leaves the zero value; a
payload of a different shape also unmarshals to the zero value (see the
header comment). -/
def readAzureApi (fs : FS) (p : FPath) : Option AzureApi :=
  match fsRead fs p with
  | some (.api a) => some a
  | some _ => some default
  | none => if dirExists fs p then some default else none

/-- Lines 432-438: load the service metadata; an open error is tolerated and
leaves the zero value. -/
def readAzureService (fs : FS) (p : FPath) : AzureService :=
  match fsRead fs p with
  | some (.service s) => s
  | some _ => default
  | none => default

/-- Lines 460-473: the canonical record built from one staged Azure API. -/
def buildGeneralApi (flags : AzureFlags) (azureService : AzureService)
    (azureApi : AzureApi) : GeneralApi where
  Name := azureApi.Name ++ "-azure".data
  DisplayName := azureApi.Properties.DisplayName
  Description := azureApi.Properties.Description
  Version := azureApi.Properties.ApiVersion
  OwnerEmail := azureService.Properties.PublisherEmail
  OwnerName := azureService.Properties.PublisherName
  DocumentationUrl :=
    azureService.Properties.DeveloperPortalUrl ++ "/api-details#api=".data ++
      azureApi.Name
  GatewayUrl :=
    azureService.Properties.GatewayUrl ++ "/".data ++ azureApi.Properties.Path
  BasePath := azureApi.Properties.Path
  PlatformId := "azure-api-management".data
  PlatformName := "Azure API Management".data
  PlatformResourceUri :=
    "https://portal.azure.com/#resource/subscriptions/".data ++
      flags.Subscription ++ "/resourceGroups/".data ++ flags.ResourceGroup ++
      "/providers/Microsoft.ApiManagement/service/".data ++ flags.ServiceName ++
      "/overview?apiName=".data ++ azureApi.Name

/-- Modelled from the spec: `writeGeneralApi` (called at line 480) is declared
outside the visible slice.  Per the spec's staging layout the canonical
artifact of a group is persisted at `canonical/<groupKey>/<canonicalName>.json`,
which is the same destination the explicit write on the next source line
targets, so the call is modelled as that write (the two writes coincide). -/
def writeGeneralApi (fs : FS) (groupName : Str) (g : GeneralApi) : FS :=
  fsWrite fs (generalApiproxiesDir ++ [groupName, g.Name ++ ".json".data])
    (.general g)

/-- `foldl` over a step that can abort the whole run (`log.Fatal`). -/
def foldOpt (f : σ → α → Option σ) : List α → σ → Option σ
  | [], st => some st
  | a :: as, st =>
    match f st a with
    | none => none
    | some st' => foldOpt f as st'

/-- Lines 446-491: process one file of a group directory.  The state is the
filesystem plus the list of canonical records built so far. -/
def offrampFile (flags : AzureFlags) (azureService : AzureService)
    (groupName : Str) (st : FS × List GeneralApi) (fileName : Str) :
    Option (FS × List GeneralApi) :=
  if ¬ ("-oas.json".data <:+ fileName) ∧
      ¬ ("-oas-definition.json".data <:+ fileName) then
    match readAzureApi st.1 (azureApiproxiesDir ++ [groupName, fileName]) with
    | none => none
    | some azureApi =>
      if azureApi.Name ≠ [] then
        let g := buildGeneralApi flags azureService azureApi
        let fs1 := fsWrite (writeGeneralApi st.1 groupName g)
          (generalApiproxiesDir ++ [groupName, g.Name ++ ".json".data])
          (.general g)
        let fs2 :=
          match fsRead fs1
              (azureApiproxiesDir ++ [groupName, azureApi.Name ++ "-oas.json".data]) with
          | some c =>
            fsWrite fs1
              (generalApiproxiesDir ++ [groupName, g.Name ++ "-oas.json".data]) c
          | none => fs1
        some (fs2, st.2 ++ [g])
      else some st
  else some st

/-- Lines 440-492: process one entry of the platform export area.  The group's
file listing (`os.ReadDir`, error ignored at line 445) is taken on the state's
current filesystem. -/
def offrampGroup (flags : AzureFlags) (azureService : AzureService)
    (st : FS × List GeneralApi) (e : Str) : Option (FS × List GeneralApi) :=
  if flags.ApiName = [] ∨ flags.ApiName = e then
    foldOpt (offrampFile flags azureService e)
      (childrenOf st.1 (azureApiproxiesDir ++ [e])) st
  else some st

/-- `azureOfframp` (lines 408-496).  Returns `none` when the run dies in
`log.Fatal` (the export area cannot be listed, line 426, or an API file
cannot be opened, line 453); otherwise the final filesystem together with
the canonical records built during the run. -/
def azureOfframp (flags : AzureFlags) (fs : FS) :
    Option (FS × List GeneralApi) :=
  if flags.Subscription = [] then some (fs, [])
  else if flags.ResourceGroup = [] then some (fs, [])
  else if flags.ServiceName = [] then some (fs, [])
  else if dirExists fs azureApiproxiesDir = false then none
  else
    let azureService := readAzureService fs (azureServicePath flags)
    foldOpt (offrampGroup flags azureService) (childrenOf fs azureApiproxiesDir)
      (fs, [])

/-! ### The web-service sync handler (src/webserver.go, apimSync lines 77-100) -/

/-- `ApimSyncInput` from src/webserver.go. -/
structure ApimSyncInput where
  Offramp : Str
  Onramp : Str
deriving DecidableEq, Inhabited, Repr

/-- `ApimSyncOutput` from src/webserver.go. -/
structure ApimSyncOutput where
  Result : Bool
  Message : Str
deriving DecidableEq, Inhabited, Repr

/-- `apimSync` (src/webserver.go lines 77-100).  The AWS and API Hub
operations are declared outside the visible slice; per the spec they are the
symmetric external offramp/onramp collaborators, so each is an arbitrary
filesystem transformation together with a reported error flag — `apimSync`
discards every return value of the operations it invokes, which the
definition makes explicit by projecting `.1`.  The Azure flags are built from
the environment with no token and no API filter (line 81).  `none` is a run
that dies inside `azureOfframp` before a response is produced. -/
def apimSync (env : Str → Str) (getAzureToken : Str → Str → Str → Str)
    (apis : AzureApis) (schemas : Str → AzureApiSchema)
    (awsExportRun awsOfframpRun apiHubOnrampRun apiHubImportRun : FS → FS × Bool)
    (fs : FS) (input : ApimSyncInput) : Option (ApimSyncOutput × FS) :=
  let azureFlags : AzureFlags :=
    { Subscription := env "AZURE_SUBSCRIPTION_ID".data,
      ResourceGroup := env "AZURE_RESOURCE_GROUP".data,
      ServiceName := env "AZURE_SERVICE_NAME".data,
      Token := [], ApiName := [], OnlyNew := false }
  let step1 : Option FS :=
    if input.Offramp = "azure".data then
      match azureOfframp azureFlags
          (azureExport azureFlags env getAzureToken apis schemas fs).fs with
      | some r => some r.1
      | none => none
    else if input.Offramp = "aws".data then
      some (awsOfframpRun (awsExportRun fs).1).1
    else some fs
  match step1 with
  | none => none
  | some fs1 =>
    let fs2 :=
      if input.Onramp = "apihub".data then
        (apiHubImportRun (apiHubOnrampRun fs1).1).1
      else fs1
    some
      ({ Result := true,
         Message := "Sync from ".data ++ input.Offramp ++ " to ".data ++
           input.Onramp ++ " successful!".data }, fs2)

/-- An API whose display name already carries the version tag while its raw
name does not (`displayName "Orders v1"`, raw name `orders`, tag `v1`). -/
def apiC5 : AzureApi :=
  { (default : AzureApi) with
      Name := "orders".data,
      Properties := { (default : AzureApiProperties) with
        DisplayName := "Orders v1".data, ApiVersion := "v1".data } }

/-- An API with display name `"Orders"`, raw name `orders`, tag `v1`. -/
def apiC5w : AzureApi :=
  { (default : AzureApi) with
      Name := "orders".data,
      Properties := { (default : AzureApiProperties) with
        DisplayName := "Orders".data, ApiVersion := "v1".data } }

/-- The staging file whose existence the `onlyNew` check of line 298 probes
(and which line 304 writes): group directory from the raw name, file name
from the qualified name. -/
def apiCheckPath (api : AzureApi) : FPath :=
  azureApiproxiesDir ++ [stripVersionSuffix api.Name,
    qualify api.Name api.Properties.ApiVersion ++ ".json".data]

/-- Concrete flags used by the witnesses: prerequisites present, token given,
no name filter, `onlyNew` off. -/
def flagsW : AzureFlags :=
  { Subscription := "s".data, ResourceGroup := "r".data,
    ServiceName := "svc".data, Token := "t".data, ApiName := [],
    OnlyNew := false }

/-- The same flags with `onlyNew` on. -/
def flagsC2 : AzureFlags := { flagsW with OnlyNew := true }

/-- An environment with no variables set. -/
def envW : Str → Str := fun _ => []

/-- A token provider that always fails. -/
def tokW : Str → Str → Str → Str := fun _ _ _ => []

/-- A schema endpoint that returns no schema (zero value). -/
def schemasW : Str → AzureApiSchema := fun _ => default

/-- First-run API of the C2 counterexample: raw name `orders`, version tag
`2.0`, so the qualified name is `orders-2.0` staged in group `orders`. -/
def apiC2a : AzureApi :=
  { (default : AzureApi) with
      Name := "orders".data,
      Properties := { (default : AzureApiProperties) with
        ApiVersion := "2.0".data } }

/-- Second-run API of the C2 counterexample: same qualified name `orders-2.0`
(the raw name now carries the tag) and changed content. -/
def apiC2b : AzureApi :=
  { (default : AzureApi) with
      Name := "orders-2.0".data,
      Properties := { (default : AzureApiProperties) with
        Description := "changed".data, ApiVersion := "2.0".data } }

/-- First `onlyNew` export run over `apiC2a`. -/
def runC2a : ExportState := azureExport flagsC2 envW tokW ⟨[apiC2a]⟩ schemasW []

/-- Second `onlyNew` export run over `apiC2b`, on the staging area left by the
first run. -/
def runC2b : ExportState :=
  azureExport flagsC2 envW tokW ⟨[apiC2b]⟩ schemasW runC2a.fs

/-- A non-primary revision entry as listed by the management API. -/
def apiRev : AzureApi :=
  { (default : AzureApi) with Name := "billing;rev=2".data }

/-- The offramp reads the azure staging area of the filesystem it started
with: `fs` agrees with the original `F` on every read, existence query and
directory listing under the azure export area. -/
def azureView (fs F : FS) : Prop :=
  ∀ p : FPath, azureApiproxiesDir <+: p →
    fsRead fs p = fsRead F p ∧ dirExists fs p = dirExists F p ∧
    childrenOf fs p = childrenOf F p

/-- A canonical record produced by an offramp run over filesystem `F`: it is
built (with the run's service metadata) from a staged API file of the azure
export area whose decoded name is non-empty. -/
def offrampProduced (flags : AzureFlags) (svc : AzureService) (F : FS)
    (g : GeneralApi) : Prop :=
  ∃ p : FPath, azureApiproxiesDir <+: p ∧ ∃ a : AzureApi, a.Name ≠ [] ∧
    readAzureApi F p = some a ∧ g = buildGeneralApi flags svc a

/-- What the export writes under the azure area: a qualified API, a schema
descriptor, or a schema document. -/
def exportedContent (l : List AzureApi) (c : FileContent) : Prop :=
  (∃ api ∈ l, c = .api (qualifyApi api)) ∨ (∃ s, c = .schemaDef s) ∨
  (∃ d, c = .doc d)

/-- The source API of the end-to-end witness run: raw name `orders`, version
tag `v2`, base path `orders`. -/
def apiW : AzureApi :=
  { (default : AzureApi) with
      Id := "1".data, Name := "orders".data,
      Properties := { (default : AzureApiProperties) with
        DisplayName := "Orders".data, Path := "orders".data,
        ApiVersion := "v2".data } }

/-- The export of `apiW` into an empty staging area. -/
def expW : ExportState := azureExport flagsW envW tokW ⟨[apiW]⟩ schemasW []

/-- The offramp run over that staging area. -/
def offrampRW : FS × List GeneralApi :=
  (azureOfframp flagsW expW.fs).getD (expW.fs, [])

/-- The service metadata of the C8 counterexample. -/
def svcC8 : AzureService :=
  { (default : AzureService) with
      Properties := { (default : AzureServiceProperties) with
        GatewayUrl := "https://gw".data } }

/-- An API staged with base path `/orders` (leading slash, as in the claim's
example). -/
def apiC8 : AzureApi :=
  { (default : AzureApi) with
      Name := "orders-v2".data,
      Properties := { (default : AzureApiProperties) with
        Path := "/orders".data } }

/-- A sync request selecting no supported offramp or onramp platform. -/
def syncInputW : ApimSyncInput := { Offramp := "none".data, Onramp := "none".data }

/-- The response the handler produces for `syncInputW`. -/
def syncOutW : ApimSyncOutput :=
  { Result := true, Message := "Sync from none to none successful!".data }

/-- An external operation that changes nothing and reports no error. -/
def runIdW : FS → FS × Bool := fun fs => (fs, false)

/-! ### Theorems -/

theorem fsRead_nil (p : FPath) : fsRead ([] : FS) p = none := rfl

theorem fsRead_fsWrite_self (fs : FS) (p : FPath) (c : FileContent) :
    fsRead (fsWrite fs p c) p = some c := by
  induction fs with
  | nil => simp [fsRead, fsWrite]
  | cons e t ih =>
    by_cases h : e.1 = p
    · simpa [fsRead, fsWrite, h] using ih
    · simpa [fsRead, fsWrite, h] using ih

theorem fsRead_fsWrite_ne (fs : FS) (p : FPath) (c : FileContent) (q : FPath)
    (hq : q ≠ p) : fsRead (fsWrite fs p c) q = fsRead fs q := by
  have hpq : ¬ p = q := fun h => hq h.symm
  induction fs with
  | nil => simp [fsRead, fsWrite, hpq]
  | cons e t ih =>
    by_cases h : e.1 = p
    · have h2 : ¬ e.1 = q := by rw [h]; exact hpq
      simpa [fsRead, fsWrite, h, h2, hpq] using ih
    · by_cases h3 : e.1 = q
      · simp [fsRead, fsWrite, h, h3, hq]
      · simpa [fsRead, fsWrite, h, h3, hq] using ih

theorem mem_fsWrite (fs : FS) (p : FPath) (c : FileContent)
    (e : FPath × FileContent) :
    e ∈ fsWrite fs p c ↔ (e ∈ fs ∧ e.1 ≠ p) ∨ e = (p, c) := by
  induction fs with
  | nil => simp [fsWrite]
  | cons x t ih =>
    rw [fsWrite]
    by_cases h : x.1 = p
    · simp only [if_pos h, ih, List.mem_cons]
      constructor
      · rintro (⟨het, hne⟩ | rfl)
        · exact Or.inl ⟨Or.inr het, hne⟩
        · exact Or.inr rfl
      · rintro (⟨rfl | het, hne⟩ | rfl)
        · exact absurd h hne
        · exact Or.inl ⟨het, hne⟩
        · exact Or.inr rfl
    · simp only [if_neg h, List.mem_cons, ih]
      constructor
      · rintro (rfl | ⟨het, hne⟩ | rfl)
        · exact Or.inl ⟨Or.inl rfl, h⟩
        · exact Or.inl ⟨Or.inr het, hne⟩
        · exact Or.inr rfl
      · rintro (⟨rfl | het, hne⟩ | rfl)
        · exact Or.inl rfl
        · exact Or.inr (Or.inl ⟨het, hne⟩)
        · exact Or.inr (Or.inr rfl)

theorem dirExists_iff (fs : FS) (p : FPath) :
    dirExists fs p = true ↔ ∃ e ∈ fs, p <+: e.1 ∧ e.1 ≠ p := by
  simp [dirExists, List.any_eq_true]

theorem dirExists_nil (p : FPath) : dirExists ([] : FS) p = false := rfl

theorem canOpen_nil (p : FPath) : canOpen ([] : FS) p = false := rfl

theorem canOpen_fsWrite (fs : FS) (p : FPath) (c : FileContent) (q : FPath)
    (h : canOpen fs q = true) : canOpen (fsWrite fs p c) q = true := by
  rcases Bool.or_eq_true_iff.mp h with h1 | h2
  · by_cases hqp : q = p
    · subst hqp
      simp [canOpen, fsRead_fsWrite_self]
    · simp [canOpen, fsRead_fsWrite_ne fs p c q hqp, h1]
  · rcases (dirExists_iff fs q).mp h2 with ⟨e, he, hpe, hne⟩
    by_cases hep : e.1 = p
    · have : dirExists (fsWrite fs p c) q = true := by
        refine (dirExists_iff _ q).mpr ⟨(p, c), ?_, ?_, ?_⟩
        · exact (mem_fsWrite fs p c (p, c)).mpr (Or.inr rfl)
        · exact hep ▸ hpe
        · exact fun hc => hne (hep.trans hc)
      simp [canOpen, this]
    · have : dirExists (fsWrite fs p c) q = true := by
        refine (dirExists_iff _ q).mpr ⟨e, ?_, hpe, hne⟩
        exact (mem_fsWrite fs p c e).mpr (Or.inl ⟨he, hep⟩)
      simp [canOpen, this]

theorem canOpen_fsWrite_self (fs : FS) (p : FPath) (c : FileContent) :
    canOpen (fsWrite fs p c) p = true := by
  simp [canOpen, fsRead_fsWrite_self]

theorem qualifyApi_Name (api : AzureApi) :
    (qualifyApi api).Name = qualify api.Name api.Properties.ApiVersion := by
  simp only [qualifyApi]
  split <;> split <;> simp_all [qualify] <;> rw [if_neg (by tauto)]

theorem qualifyApi_Path (api : AzureApi) :
    (qualifyApi api).Properties.Path = api.Properties.Path := by
  simp only [qualifyApi]
  split <;> split <;> rfl

theorem qualifyApi_ApiVersion (api : AzureApi) :
    (qualifyApi api).Properties.ApiVersion = api.Properties.ApiVersion := by
  simp only [qualifyApi]
  split <;> split <;> rfl

/-! ### Helper lemmas on takeWhile / dropWhile -/

theorem dropWhile_append_cons (p : Char → Bool) (a : Str) (c : Char) (b : Str)
    (ha : ∀ x ∈ a, p x = true) (hc : p c = false) :
    (a ++ c :: b).dropWhile p = c :: b := by
  induction a with
  | nil => simp [List.dropWhile_cons, hc]
  | cons x t ih =>
    have hx := ha x (List.mem_cons_self x t)
    simp only [List.cons_append, List.dropWhile_cons, hx, if_true]
    exact ih (fun y hy => ha y (List.mem_cons_of_mem x hy))

theorem takeWhile_append_cons (p : Char → Bool) (a : Str) (c : Char) (b : Str)
    (ha : ∀ x ∈ a, p x = true) (hc : p c = false) :
    (a ++ c :: b).takeWhile p = a := by
  induction a with
  | nil => simp [List.takeWhile_cons, hc]
  | cons x t ih =>
    have hx := ha x (List.mem_cons_self x t)
    simp only [List.cons_append, List.takeWhile_cons, hx, if_true]
    rw [ih (fun y hy => ha y (List.mem_cons_of_mem x hy))]

theorem mem_takeWhile_sat (p : Char → Bool) (l : Str) (x : Char)
    (hx : x ∈ l.takeWhile p) : p x = true := by
  induction l with
  | nil => simp [List.takeWhile] at hx
  | cons y t ih =>
    rw [List.takeWhile_cons] at hx
    by_cases hy : p y = true
    · rw [if_pos hy] at hx
      rcases List.mem_cons.mp hx with rfl | h
      · exact hy
      · exact ih h
    · rw [if_neg hy] at hx
      simp at hx

theorem stripVersionSuffix_of_match (s r : Str)
    (hdrop : s.reverse.dropWhile Char.isDigit = 'v' :: '-' :: r)
    (htake : s.reverse.takeWhile Char.isDigit ≠ []) :
    stripVersionSuffix s = r.reverse := by
  unfold stripVersionSuffix
  rw [hdrop]
  simp [htake]

/-- C3: for every raw API name of the form `base ++ "-v" ++ digits` (at least
one digit), the group key computed during export (the regex replacement of
lines 285-286) is `base`; for every raw name without such a trailing suffix
it is the raw name itself. -/
theorem groupKey_spec :
    (∀ base N : Str, N ≠ [] → (∀ c ∈ N, c.isDigit = true) →
      stripVersionSuffix (base ++ '-' :: 'v' :: N) = base)
    ∧ (∀ raw : Str,
      (¬ ∃ base N : Str, N ≠ [] ∧ (∀ c ∈ N, c.isDigit = true) ∧
        raw = base ++ '-' :: 'v' :: N) →
      stripVersionSuffix raw = raw) := by
  constructor
  · intro base N hN hdig
    have hrev : (base ++ '-' :: 'v' :: N).reverse
        = N.reverse ++ 'v' :: '-' :: base.reverse := by
      simp
    have hdig' : ∀ x ∈ N.reverse, Char.isDigit x = true :=
      fun x hx => hdig x (List.mem_reverse.mp hx)
    have hdrop : (base ++ '-' :: 'v' :: N).reverse.dropWhile Char.isDigit
        = 'v' :: '-' :: base.reverse := by
      rw [hrev]
      exact dropWhile_append_cons _ _ _ _ hdig' (by decide)
    have htake : (base ++ '-' :: 'v' :: N).reverse.takeWhile Char.isDigit
        = N.reverse := by
      rw [hrev]
      exact takeWhile_append_cons _ _ _ _ hdig' (by decide)
    rw [stripVersionSuffix_of_match _ base.reverse hdrop
      (by rw [htake]; simpa using hN)]
    exact List.reverse_reverse base
  · intro raw hno
    unfold stripVersionSuffix
    rcases hdw : raw.reverse.dropWhile Char.isDigit with _ | ⟨c1, _ | ⟨c2, r⟩⟩
    · rfl
    · rfl
    · by_cases hcond : c1 = 'v' ∧ c2 = '-' ∧
          raw.reverse.takeWhile Char.isDigit ≠ []
      · exfalso
        rcases hcond with ⟨rfl, rfl, htk⟩
        apply hno
        refine ⟨r.reverse, (raw.reverse.takeWhile Char.isDigit).reverse, ?_, ?_, ?_⟩
        · simpa using htk
        · intro c hc
          exact mem_takeWhile_sat _ _ _ (List.mem_reverse.mp hc)
        · have hsplit : raw.reverse
              = raw.reverse.takeWhile Char.isDigit ++ 'v' :: '-' :: r := by
            rw [← hdw]
            exact (List.takeWhile_append_dropWhile Char.isDigit raw.reverse).symm
          calc raw = raw.reverse.reverse := (List.reverse_reverse raw).symm
            _ = (raw.reverse.takeWhile Char.isDigit ++ 'v' :: '-' :: r).reverse := by
                  rw [← hsplit]
            _ = r.reverse ++ '-' :: 'v' :: (raw.reverse.takeWhile Char.isDigit).reverse := by
                  simp
      · show (if c1 = 'v' ∧ c2 = '-' ∧
            raw.reverse.takeWhile Char.isDigit ≠ [] then r.reverse else raw) = raw
        exact if_neg hcond

/-- C4: the name-qualification rule is idempotent, a name already ending in
its version tag is left unmodified, and an empty version tag leaves the name
unchanged. -/
theorem qualify_idempotent :
    (∀ name versionTag : Str,
      qualify (qualify name versionTag) versionTag = qualify name versionTag)
    ∧ (∀ name versionTag : Str, versionTag <:+ name →
      qualify name versionTag = name)
    ∧ (∀ name : Str, qualify name [] = name) := by
  refine ⟨?_, ?_, ?_⟩
  · intro name v
    by_cases h : v ≠ [] ∧ ¬ (v <:+ name)
    · have hq : qualify name v = name ++ "-".data ++ v := by
        rw [qualify, if_pos h]
      rw [hq, qualify, if_neg]
      rintro ⟨hv, hsuf⟩
      exact hsuf (List.suffix_append (name ++ "-".data) v)
    · have hq : qualify name v = name := by
        rw [qualify, if_neg h]
      rw [hq]
      exact hq
  · intro name v hsuf
    rw [qualify, if_neg]
    rintro ⟨_, h2⟩
    exact h2 hsuf
  · intro name
    rw [qualify, if_neg]
    rintro ⟨h1, _⟩
    exact h1 rfl

theorem qualify_idempotent_witness :
    qualify (qualify "orders".data "v2".data) "v2".data
      = qualify "orders".data "v2".data
    ∧ qualify "orders-v2".data "v2".data = "orders-v2".data :=
  ⟨qualify_idempotent.1 "orders".data "v2".data,
   qualify_idempotent.2.1 "orders-v2".data "v2".data (by decide)⟩

theorem groupKey_spec_witness :
    stripVersionSuffix ("orders".data ++ '-' :: 'v' :: ['2']) = "orders".data
    ∧ stripVersionSuffix "billing".data = "billing".data :=
  ⟨groupKey_spec.1 "orders".data ['2'] (by decide) (by decide),
   groupKey_spec.2 "billing".data (by
    rintro ⟨base, N, hN, hdig, heq⟩
    have h1 : '-' ∈ "billing".data := by
      rw [heq]
      exact List.mem_append.mpr (Or.inr (List.mem_cons_self _ _))
    revert h1
    decide)⟩

/-- C5 (amended): with a non-empty version tag the display name is extended
with a space separator, not `"-"`; when the raw name does not already end
with the tag the display name is extended unconditionally — even if it
already ends with the tag, so it can be double-suffixed — and otherwise it is
extended exactly when it does not already end with the tag. -/
theorem qualifiedDisplayName_spec (api : AzureApi) :
    (api.Properties.ApiVersion = [] →
      qualifiedDisplayName api = api.Properties.DisplayName)
    ∧ (api.Properties.ApiVersion ≠ [] →
      ¬ (api.Properties.ApiVersion <:+ api.Name) →
      qualifiedDisplayName api
        = api.Properties.DisplayName ++ " ".data ++ api.Properties.ApiVersion)
    ∧ (api.Properties.ApiVersion ≠ [] →
      api.Properties.ApiVersion <:+ api.Name →
      ¬ (api.Properties.ApiVersion <:+ api.Properties.DisplayName) →
      qualifiedDisplayName api
        = api.Properties.DisplayName ++ " ".data ++ api.Properties.ApiVersion)
    ∧ (api.Properties.ApiVersion ≠ [] →
      api.Properties.ApiVersion <:+ api.Name →
      api.Properties.ApiVersion <:+ api.Properties.DisplayName →
      qualifiedDisplayName api = api.Properties.DisplayName) := by
  refine ⟨?_, ?_, ?_, ?_⟩
  · intro h
    simp [qualifiedDisplayName, qualifyApi, h]
  · intro h1 h2
    have hs : api.Properties.ApiVersion <:+
        api.Properties.DisplayName ++ ' ' :: api.Properties.ApiVersion := by
      have h := List.suffix_append (api.Properties.DisplayName ++ [' '])
        api.Properties.ApiVersion
      simpa using h
    simp [qualifiedDisplayName, qualifyApi, h1, h2, hs]
  · intro h1 h2 h3
    simp [qualifiedDisplayName, qualifyApi, h1, h2, h3]
  · intro h1 h2 h3
    simp [qualifiedDisplayName, qualifyApi, h1, h2, h3]

/-- C5 counterexample: for `apiC5` the display name already ends with the
version tag, yet the export block changes it — it appends the tag once more
with a space separator, yielding `"Orders v1 v1"` — so the display name is
neither left unchanged nor given a `"-"`-separated suffix, and it is
double-suffixed. -/
theorem qualifiedDisplayName_counterexample :
    apiC5.Properties.ApiVersion <:+ apiC5.Properties.DisplayName
    ∧ qualifiedDisplayName apiC5 = "Orders v1 v1".data
    ∧ qualifiedDisplayName apiC5 ≠ apiC5.Properties.DisplayName
    ∧ qualifiedDisplayName apiC5
      ≠ apiC5.Properties.DisplayName ++ "-".data ++ apiC5.Properties.ApiVersion := by
  decide

theorem qualifiedDisplayName_spec_witness :
    qualifiedDisplayName apiC5w
      = apiC5w.Properties.DisplayName ++ " ".data ++ apiC5w.Properties.ApiVersion :=
  (qualifiedDisplayName_spec apiC5w).2.1 (by decide) (by decide)

theorem exportApi_not_pass (flags : AzureFlags) (schemas : Str → AzureApiSchema)
    (token : Str) (st : ExportState) (api : AzureApi)
    (h : ¬ filterPass flags api) :
    exportApi flags schemas token st api = st := by
  unfold exportApi
  rw [if_neg h]

theorem exportApi_skip (flags : AzureFlags) (schemas : Str → AzureApiSchema)
    (token : Str) (st : ExportState) (api : AzureApi)
    (hnew : flags.OnlyNew = true)
    (hopen : canOpen st.fs (apiCheckPath api) = true) :
    exportApi flags schemas token st api = st := by
  by_cases hp : filterPass flags api
  · have hopen' : canOpen st.fs (azureApiproxiesDir ++
        [stripVersionSuffix api.Name, (qualifyApi api).Name ++ ".json".data])
        = true := by
      rw [qualifyApi_Name]
      exact hopen
    have hneg : ¬ ((flags.OnlyNew = true ∧ canOpen st.fs (azureApiproxiesDir ++
        [stripVersionSuffix api.Name, (qualifyApi api).Name ++ ".json".data])
        = false) ∨ flags.OnlyNew = false) := by
      rintro (⟨_, h2⟩ | h3)
      · rw [hopen'] at h2
        cases h2
      · rw [hnew] at h3
        cases h3
    simp only [exportApi, if_pos hp, if_neg hneg]
  · exact exportApi_not_pass flags schemas token st api hp

theorem exportApi_canOpen (flags : AzureFlags) (schemas : Str → AzureApiSchema)
    (token : Str) (st : ExportState) (api : AzureApi) (q : FPath)
    (h : canOpen st.fs q = true) :
    canOpen (exportApi flags schemas token st api).fs q = true := by
  simp only [exportApi]
  split
  · split
    · dsimp only
      split
      · exact canOpen_fsWrite _ _ _ _
          (canOpen_fsWrite _ _ _ _ (canOpen_fsWrite _ _ _ _ h))
      · exact canOpen_fsWrite _ _ _ _ h
    · exact h
  · exact h

theorem exportApi_checkPath (flags : AzureFlags) (schemas : Str → AzureApiSchema)
    (token : Str) (st : ExportState) (api : AzureApi)
    (hp : filterPass flags api) :
    canOpen (exportApi flags schemas token st api).fs (apiCheckPath api) = true := by
  simp only [exportApi, if_pos hp]
  split
  · dsimp only
    have hbase : canOpen (fsWrite st.fs (azureApiproxiesDir ++
        [stripVersionSuffix api.Name,
          qualify api.Name api.Properties.ApiVersion ++ ".json".data])
        (.api (qualifyApi api))) (apiCheckPath api) = true := by
      rw [apiCheckPath]
      exact canOpen_fsWrite_self _ _ _
    split
    · exact canOpen_fsWrite _ _ _ _ (canOpen_fsWrite _ _ _ _ hbase)
    · exact hbase
  · rename_i hcond
    have : canOpen st.fs (azureApiproxiesDir ++ [stripVersionSuffix api.Name,
        (qualifyApi api).Name ++ ".json".data]) = true := by
      by_contra hc
      rcases hnew : flags.OnlyNew with _ | _
      · exact hcond (Or.inr hnew)
      · exact hcond (Or.inl ⟨hnew, Bool.not_eq_true _ ▸ hc⟩)
    rw [qualifyApi_Name] at this
    exact this

theorem foldl_invariant {σ α : Type _} (I : σ → Prop) (f : σ → α → σ) :
    ∀ (l : List α) (st : σ), (∀ s a, a ∈ l → I s → I (f s a)) → I st →
      I (l.foldl f st)
  | [], _, _, h0 => h0
  | a :: t, st, hstep, h0 => by
    rw [List.foldl_cons]
    exact foldl_invariant I f t (f st a)
      (fun s b hb hI => hstep s b (List.mem_cons_of_mem a hb) hI)
      (hstep st a (List.mem_cons_self a t) h0)

theorem export_canOpen_mono (flags : AzureFlags) (schemas : Str → AzureApiSchema)
    (token : Str) (l : List AzureApi) (st : ExportState) (q : FPath)
    (h : canOpen st.fs q = true) :
    canOpen ((l.foldl (exportApi flags schemas token) st).fs) q = true :=
  foldl_invariant (fun s => canOpen s.fs q = true) _ l st
    (fun s a _ hI => exportApi_canOpen flags schemas token s a q hI) h

theorem export_checkPath_all (flags : AzureFlags) (schemas : Str → AzureApiSchema)
    (token : Str) :
    ∀ (l : List AzureApi) (st : ExportState) (api : AzureApi), api ∈ l →
      filterPass flags api →
      canOpen ((l.foldl (exportApi flags schemas token) st).fs)
        (apiCheckPath api) = true
  | a :: t, st, api, hmem, hpass => by
    rw [List.foldl_cons]
    rcases List.mem_cons.mp hmem with rfl | ht
    · exact export_canOpen_mono flags schemas token t _ _
        (exportApi_checkPath flags schemas token st api hpass)
    · exact export_checkPath_all flags schemas token t
        (exportApi flags schemas token st a) api ht hpass

theorem export_skip_all (flags : AzureFlags) (schemas : Str → AzureApiSchema)
    (token : Str) (hnew : flags.OnlyNew = true) :
    ∀ (l : List AzureApi) (st : ExportState),
      (∀ api ∈ l, filterPass flags api →
        canOpen st.fs (apiCheckPath api) = true) →
      l.foldl (exportApi flags schemas token) st = st
  | [], _, _ => rfl
  | a :: t, st, h => by
    rw [List.foldl_cons]
    by_cases hp : filterPass flags a
    · rw [exportApi_skip flags schemas token st a hnew
        (h a (List.mem_cons_self a t) hp)]
      exact export_skip_all flags schemas token hnew t st
        (fun api hm hpass => h api (List.mem_cons_of_mem a hm) hpass)
    · rw [exportApi_not_pass flags schemas token st a hp]
      exact export_skip_all flags schemas token hnew t st
        (fun api hm hpass => h api (List.mem_cons_of_mem a hm) hpass)

theorem azureExport_noop (flags : AzureFlags) (env : Str → Str)
    (tok : Str → Str → Str → Str) (apis : AzureApis)
    (schemas : Str → AzureApiSchema) (fs : FS)
    (h : flags.Subscription = [] ∨ flags.ResourceGroup = [] ∨
      flags.ServiceName = [] ∨ resolveToken flags env tok = none) :
    azureExport flags env tok apis schemas fs = ⟨[], fs, []⟩ := by
  unfold azureExport
  by_cases h1 : flags.Subscription = []
  · rw [if_pos h1]
  · rw [if_neg h1]
    by_cases h2 : flags.ResourceGroup = []
    · rw [if_pos h2]
    · rw [if_neg h2]
      by_cases h3 : flags.ServiceName = []
      · rw [if_pos h3]
      · rw [if_neg h3]
        have h4 : resolveToken flags env tok = none := by tauto
        rw [h4]

theorem azureExport_run (flags : AzureFlags) (env : Str → Str)
    (tok : Str → Str → Str → Str) (apis : AzureApis)
    (schemas : Str → AzureApiSchema) (fs : FS) (token : Str)
    (h1 : ¬ flags.Subscription = []) (h2 : ¬ flags.ResourceGroup = [])
    (h3 : ¬ flags.ServiceName = [])
    (htok : resolveToken flags env tok = some token) :
    azureExport flags env tok apis schemas fs
      = apis.Value.foldl (exportApi flags schemas token)
          ⟨[], fs, [.listApis flags.Subscription flags.ResourceGroup
            flags.ServiceName token]⟩ := by
  unfold azureExport
  rw [if_neg h1, if_neg h2, if_neg h3, htok]

theorem foldl_filter_skip {σ α : Type _} (f : σ → α → σ) (P : α → Prop)
    [DecidablePred P] (hid : ∀ (s : σ) (a : α), ¬ P a → f s a = s) :
    ∀ (l : List α) (st : σ),
      (l.filter (fun a => decide (P a))).foldl f st = l.foldl f st
  | [], _ => rfl
  | a :: t, st => by
    by_cases h : P a
    · rw [List.filter_cons_of_pos (by simpa using h), List.foldl_cons,
        List.foldl_cons]
      exact foldl_filter_skip f P hid t (f st a)
    · rw [List.filter_cons_of_neg (by simpa using h), List.foldl_cons,
        hid st a h]
      exact foldl_filter_skip f P hid t st

theorem azureExport_filter_rev (flags : AzureFlags) (env : Str → Str)
    (tok : Str → Str → Str → Str) (apis : AzureApis)
    (schemas : Str → AzureApiSchema) (fs : FS) :
    azureExport flags env tok
      ⟨apis.Value.filter (fun a => decide (¬ revMarker <:+: a.Name))⟩ schemas fs
      = azureExport flags env tok apis schemas fs := by
  by_cases hpre : flags.Subscription = [] ∨ flags.ResourceGroup = [] ∨
      flags.ServiceName = [] ∨ resolveToken flags env tok = none
  · rw [azureExport_noop _ _ _ _ _ _ hpre, azureExport_noop _ _ _ _ _ _ hpre]
  · push_neg at hpre
    obtain ⟨h1, h2, h3, h4⟩ := hpre
    rcases htok : resolveToken flags env tok with _ | token
    · exact absurd htok h4
    · rw [azureExport_run _ _ _ _ _ _ token h1 h2 h3 htok,
        azureExport_run _ _ _ _ _ _ token h1 h2 h3 htok]
      exact foldl_filter_skip _ _
        (fun s a hna => exportApi_not_pass flags schemas token s a
          (fun hp => hna hp.2))
        apis.Value _

/-- C2 (amended): under `onlyNew`, an API whose computed staging file already
exists is skipped entirely — the export state is unchanged, so there is no
schema request, no file write, and no entry in the returned list; running
export twice with `onlyNew` and the same upstream data yields an empty
exported list on the second run; and the staging file probed depends only on
the raw name and the version tag, so an API whose raw name and version tag
are unchanged is never re-exported — an unchanged qualified name alone does
not suffice, because the group directory is derived from the raw name (see
the counterexample). -/
theorem export_onlyNew_idempotent :
    (∀ (flags : AzureFlags) (schemas : Str → AzureApiSchema) (token : Str)
      (st : ExportState) (api : AzureApi), flags.OnlyNew = true →
      canOpen st.fs (apiCheckPath api) = true →
      exportApi flags schemas token st api = st)
    ∧ (∀ (flags : AzureFlags) (env : Str → Str) (tok : Str → Str → Str → Str)
      (apis : AzureApis) (schemas : Str → AzureApiSchema) (fs₀ : FS),
      flags.OnlyNew = true →
      (azureExport flags env tok apis schemas
        (azureExport flags env tok apis schemas fs₀).fs).exported = [])
    ∧ (∀ (flags : AzureFlags) (schemas : Str → AzureApiSchema) (token : Str)
      (st : ExportState) (a b : AzureApi), flags.OnlyNew = true →
      b.Name = a.Name → b.Properties.ApiVersion = a.Properties.ApiVersion →
      canOpen st.fs (apiCheckPath a) = true →
      exportApi flags schemas token st b = st) := by
  refine ⟨exportApi_skip, ?_, ?_⟩
  · intro flags env tok apis schemas fs₀ hnew
    by_cases hpre : flags.Subscription = [] ∨ flags.ResourceGroup = [] ∨
        flags.ServiceName = [] ∨ resolveToken flags env tok = none
    · rw [azureExport_noop _ _ _ _ _ _ hpre, azureExport_noop _ _ _ _ _ _ hpre]
    · push_neg at hpre
      obtain ⟨h1, h2, h3, h4⟩ := hpre
      rcases htok : resolveToken flags env tok with _ | token
      · exact absurd htok h4
      · rw [azureExport_run _ _ _ _ _ _ token h1 h2 h3 htok,
          azureExport_run _ _ _ _ _ _ token h1 h2 h3 htok]
        have hfold := export_skip_all flags schemas token hnew apis.Value
          ⟨[], (apis.Value.foldl (exportApi flags schemas token)
            ⟨[], fs₀, [NetRequest.listApis flags.Subscription
              flags.ResourceGroup flags.ServiceName token]⟩).fs,
            [NetRequest.listApis flags.Subscription flags.ResourceGroup
              flags.ServiceName token]⟩
          (fun api hm hpass => export_checkPath_all flags schemas token
            apis.Value _ api hm hpass)
        rw [hfold]
  · intro flags schemas token st a b hnew hn hv hopen
    have hpath : apiCheckPath b = apiCheckPath a := by
      unfold apiCheckPath
      rw [hn, hv]
    exact exportApi_skip flags schemas token st b hnew (hpath ▸ hopen)

/-- C2 counterexample: with `onlyNew` set, the second run's API has the same
qualified name `orders-2.0` as the one already staged, yet it is exported
again — the existence probe looks in the group directory derived from the raw
name (`orders-2.0`, not `orders`), so the claim's final clause fails. -/
theorem export_onlyNew_counterexample :
    flagsC2.OnlyNew = true
    ∧ qualify apiC2b.Name apiC2b.Properties.ApiVersion
      = qualify apiC2a.Name apiC2a.Properties.ApiVersion
    ∧ runC2a.exported = ["orders-2.0".data]
    ∧ runC2b.exported = ["orders-2.0".data] := by
  decide

theorem export_onlyNew_idempotent_witness :
    (azureExport flagsC2 envW tokW ⟨[apiC2a]⟩ schemasW
      (azureExport flagsC2 envW tokW ⟨[apiC2a]⟩ schemasW []).fs).exported = [] :=
  export_onlyNew_idempotent.2.1 flagsC2 envW tokW ⟨[apiC2a]⟩ schemasW [] rfl

/-- C6: an API whose raw name contains `";rev="` is excluded regardless of
the name filter — processing it leaves the export state unchanged (no staging
write, no schema request, no entry in the returned list); therefore a whole
export run equals the run on the revision-filtered listing, and the canonical
offramp output of the staged area is the same as if the revision entries had
never been listed. -/
theorem revision_filtering :
    (∀ (flags : AzureFlags) (schemas : Str → AzureApiSchema) (token : Str)
      (st : ExportState) (api : AzureApi), revMarker <:+: api.Name →
      exportApi flags schemas token st api = st)
    ∧ (∀ (flags : AzureFlags) (env : Str → Str) (tok : Str → Str → Str → Str)
      (apis : AzureApis) (schemas : Str → AzureApiSchema) (fs : FS),
      azureExport flags env tok
        ⟨apis.Value.filter (fun a => decide (¬ revMarker <:+: a.Name))⟩
        schemas fs
      = azureExport flags env tok apis schemas fs)
    ∧ (∀ (flags : AzureFlags) (env : Str → Str) (tok : Str → Str → Str → Str)
      (apis : AzureApis) (schemas : Str → AzureApiSchema) (fs : FS),
      azureOfframp flags ((azureExport flags env tok
        ⟨apis.Value.filter (fun a => decide (¬ revMarker <:+: a.Name))⟩
        schemas fs).fs)
      = azureOfframp flags ((azureExport flags env tok apis schemas fs).fs)) := by
  refine ⟨?_, azureExport_filter_rev, ?_⟩
  · intro flags schemas token st api h
    exact exportApi_not_pass flags schemas token st api (fun hp => hp.2 h)
  · intro flags env tok apis schemas fs
    rw [azureExport_filter_rev]

theorem revision_filtering_witness :
    exportApi flagsW schemasW "t".data ⟨[], [], []⟩ apiRev = ⟨[], [], []⟩ :=
  revision_filtering.1 flagsW schemasW "t".data ⟨[], [], []⟩ apiRev (by decide)

/-- C9: when a required identifier (subscription, resource group, service
name) is empty, or no token is supplied and none can be resolved from the
environment or the TokenProvider, the export performs no management-API
request, leaves the staging filesystem untouched, and returns an empty list
(the Go function returns a nil error on every such path, so the run is a
reported no-op, not a failure). -/
theorem export_missing_config_noop (flags : AzureFlags) (env : Str → Str)
    (tok : Str → Str → Str → Str) (apis : AzureApis)
    (schemas : Str → AzureApiSchema) (fs : FS)
    (h : flags.Subscription = [] ∨ flags.ResourceGroup = [] ∨
      flags.ServiceName = [] ∨ resolveToken flags env tok = none) :
    azureExport flags env tok apis schemas fs = ⟨[], fs, []⟩ :=
  azureExport_noop flags env tok apis schemas fs h

theorem export_missing_config_noop_witness :
    azureExport (default : AzureFlags) envW tokW ⟨[apiC2a]⟩ schemasW []
      = ⟨[], [], []⟩ :=
  export_missing_config_noop default envW tokW ⟨[apiC2a]⟩ schemasW []
    (Or.inl rfl)

/-! ### The offramp touches only the general area: the azure view is stable -/

theorem azure_general_clash (q : FPath) (ha : azureApiproxiesDir <+: q)
    (hg : generalApiproxiesDir <+: q) : False := by
  obtain ⟨t1, h1⟩ := ha
  obtain ⟨t2, h2⟩ := hg
  rw [← h1] at h2
  simp [azureApiproxiesDir, generalApiproxiesDir] at h2

theorem any_fsWrite_none (pred : FPath × FileContent → Bool) (fs : FS)
    (q : FPath) (c : FileContent) (hf : ∀ d, pred (q, d) = false) :
    (fsWrite fs q c).any pred = fs.any pred := by
  induction fs with
  | nil => simp [fsWrite, hf]
  | cons e t ih =>
    rw [fsWrite]
    by_cases h : e.1 = q
    · rw [if_pos h]
      have he : pred e = false := by
        have he2 : e = (q, e.2) := by rw [← h]
        rw [he2]
        exact hf e.2
      rw [ih, List.any_cons, he]
      simp
    · rw [if_neg h, List.any_cons, List.any_cons, ih]

theorem filterMap_fsWrite_none {β : Type _} (f : FPath × FileContent → Option β)
    (fs : FS) (q : FPath) (c : FileContent)
    (hf : ∀ d : FileContent, f (q, d) = none) :
    (fsWrite fs q c).filterMap f = fs.filterMap f := by
  induction fs with
  | nil => simp [fsWrite, List.filterMap_cons, hf]
  | cons e t ih =>
    rw [fsWrite]
    by_cases h : e.1 = q
    · rw [if_pos h, ih]
      have he : f e = none := by
        have he2 : e = (q, e.2) := by rw [← h]
        rw [he2]
        exact hf e.2
      rw [List.filterMap_cons, he]
    · rw [if_neg h, List.filterMap_cons, List.filterMap_cons, ih]

theorem dirExists_fsWrite_outside (fs : FS) (q : FPath) (c : FileContent)
    (p : FPath) (h : ¬ p <+: q) :
    dirExists (fsWrite fs q c) p = dirExists fs p := by
  unfold dirExists
  exact any_fsWrite_none _ fs q c (fun d => by simp [h])

theorem childrenOf_fsWrite_outside (fs : FS) (q : FPath) (c : FileContent)
    (dir : FPath) (h : ¬ dir <+: q) :
    childrenOf (fsWrite fs q c) dir = childrenOf fs dir := by
  unfold childrenOf
  rw [filterMap_fsWrite_none _ fs q c (fun d => by simp [h])]

theorem azureView_refl (F : FS) : azureView F F :=
  fun _ _ => ⟨rfl, rfl, rfl⟩

theorem azureView_fsWrite (fs F : FS) (q : FPath) (c : FileContent)
    (hq : generalApiproxiesDir <+: q) (h : azureView fs F) :
    azureView (fsWrite fs q c) F := by
  intro p hp
  have hppre : ¬ p <+: q := fun hc =>
    azure_general_clash q (hp.trans hc) hq
  have hpq : p ≠ q := fun hc =>
    azure_general_clash q (hc ▸ hp) hq
  refine ⟨?_, ?_, ?_⟩
  · rw [fsRead_fsWrite_ne fs q c p hpq]
    exact (h p hp).1
  · rw [dirExists_fsWrite_outside fs q c p hppre]
    exact (h p hp).2.1
  · rw [childrenOf_fsWrite_outside fs q c p hppre]
    exact (h p hp).2.2

theorem readAzureApi_view (fs F : FS) (p : FPath) (h : azureView fs F)
    (hp : azureApiproxiesDir <+: p) :
    readAzureApi fs p = readAzureApi F p := by
  unfold readAzureApi
  rw [(h p hp).1, (h p hp).2.1]

theorem offrampFile_spec (flags : AzureFlags) (svc : AzureService) (e f : Str)
    (st st' : FS × List GeneralApi) (F : FS)
    (hrun : offrampFile flags svc e st f = some st')
    (hview : azureView st.1 F) :
    azureView st'.1 F ∧
    ∀ g ∈ st'.2, g ∈ st.2 ∨ ∃ a : AzureApi, a.Name ≠ [] ∧
      readAzureApi F (azureApiproxiesDir ++ [e, f]) = some a ∧
      g = buildGeneralApi flags svc a := by
  unfold offrampFile at hrun
  split at hrun
  · split at hrun
    · cases hrun
    · rename_i a heq
      split at hrun
      · rename_i hname
        cases hrun
        refine ⟨?_, ?_⟩
        · dsimp only
          split
          · refine azureView_fsWrite _ _ _ _ ⟨_, rfl⟩ ?_
            refine azureView_fsWrite _ _ _ _ ⟨_, rfl⟩ ?_
            unfold writeGeneralApi
            exact azureView_fsWrite _ _ _ _ ⟨_, rfl⟩ hview
          · refine azureView_fsWrite _ _ _ _ ⟨_, rfl⟩ ?_
            unfold writeGeneralApi
            exact azureView_fsWrite _ _ _ _ ⟨_, rfl⟩ hview
        · intro g hg
          dsimp only at hg
          rcases List.mem_append.mp hg with hgs | hgg
          · exact Or.inl hgs
          · right
            refine ⟨a, hname, ?_, ?_⟩
            · rw [← readAzureApi_view st.1 F _ hview ⟨_, rfl⟩]
              exact heq
            · simpa using hgg
      · cases hrun
        exact ⟨hview, fun g hg => Or.inl hg⟩
  · cases hrun
    exact ⟨hview, fun g hg => Or.inl hg⟩

theorem foldOpt_invariant {σ α : Type _} (f : σ → α → Option σ) (I : σ → Prop)
    (hstep : ∀ s a s', f s a = some s' → I s → I s') :
    ∀ (l : List α) (st st' : σ), foldOpt f l st = some st' → I st → I st'
  | [], st, st', h, h0 => by
    simp only [foldOpt] at h
    cases h
    exact h0
  | a :: t, st, st', h, h0 => by
    simp only [foldOpt] at h
    split at h
    · cases h
    · rename_i s1 heq
      exact foldOpt_invariant f I hstep t s1 st' h (hstep st a s1 heq h0)

theorem offrampGroup_spec (flags : AzureFlags) (svc : AzureService) (F : FS)
    (st st' : FS × List GeneralApi) (e : Str)
    (hrun : offrampGroup flags svc st e = some st')
    (h : azureView st.1 F ∧ ∀ g ∈ st.2, offrampProduced flags svc F g) :
    azureView st'.1 F ∧ ∀ g ∈ st'.2, offrampProduced flags svc F g := by
  unfold offrampGroup at hrun
  split at hrun
  · refine foldOpt_invariant _
      (fun s => azureView s.1 F ∧ ∀ g ∈ s.2, offrampProduced flags svc F g)
      ?_ _ st st' hrun h
    intro s a s' heq hI
    obtain ⟨hv, hprod⟩ := offrampFile_spec flags svc e a s s' F heq hI.1
    refine ⟨hv, fun g hg => ?_⟩
    rcases hprod g hg with hgs | ⟨x, hx1, hx2, hx3⟩
    · exact hI.2 g hgs
    · exact ⟨azureApiproxiesDir ++ [e, a], ⟨_, rfl⟩, x, hx1, hx2, hx3⟩
  · cases hrun
    exact h

theorem azureOfframp_mem (flags : AzureFlags) (F : FS)
    (r : FS × List GeneralApi) (h : azureOfframp flags F = some r) :
    ∀ g ∈ r.2, offrampProduced flags
      (readAzureService F (azureServicePath flags)) F g := by
  simp only [azureOfframp] at h
  split at h
  · cases h
    exact fun g hg => absurd hg (List.not_mem_nil g)
  · split at h
    · cases h
      exact fun g hg => absurd hg (List.not_mem_nil g)
    · split at h
      · cases h
        exact fun g hg => absurd hg (List.not_mem_nil g)
      · split at h
        · cases h
        · have hres := foldOpt_invariant
            (offrampGroup flags (readAzureService F (azureServicePath flags)))
            (fun s => azureView s.1 F ∧
              ∀ g ∈ s.2, offrampProduced flags
                (readAzureService F (azureServicePath flags)) F g)
            (fun s a s' heq hI => offrampGroup_spec flags _ F s s' a heq hI)
            (childrenOf F azureApiproxiesDir) (F, []) r h
            ⟨azureView_refl F, fun g hg => absurd hg (List.not_mem_nil g)⟩
          exact hres.2

theorem fsRead_fsWrite_cases (fs : FS) (p : FPath) (c : FileContent)
    (q : FPath) (d : FileContent) (h : fsRead (fsWrite fs p c) q = some d) :
    d = c ∨ fsRead fs q = some d := by
  by_cases hq : q = p
  · subst hq
    rw [fsRead_fsWrite_self] at h
    exact Or.inl (Option.some.inj h).symm
  · rw [fsRead_fsWrite_ne fs p c q hq] at h
    exact Or.inr h

theorem exportApi_content (flags : AzureFlags) (schemas : Str → AzureApiSchema)
    (token : Str) (st : ExportState) (api : AzureApi) (l : List AzureApi)
    (hapi : api ∈ l)
    (hinv : ∀ p c, azureApiproxiesDir <+: p → fsRead st.fs p = some c →
      exportedContent l c) :
    ∀ p c, azureApiproxiesDir <+: p →
      fsRead ((exportApi flags schemas token st api).fs) p = some c →
      exportedContent l c := by
  intro p c hp hread
  revert hread
  simp only [exportApi]
  split
  · split
    · dsimp only
      split
      · intro hread
        rcases fsRead_fsWrite_cases _ _ _ _ _ hread with rfl | hread2
        · exact Or.inr (Or.inr ⟨_, rfl⟩)
        · rcases fsRead_fsWrite_cases _ _ _ _ _ hread2 with rfl | hread3
          · exact Or.inr (Or.inl ⟨_, rfl⟩)
          · rcases fsRead_fsWrite_cases _ _ _ _ _ hread3 with rfl | hread4
            · exact Or.inl ⟨api, hapi, rfl⟩
            · exact hinv p c hp hread4
      · intro hread
        rcases fsRead_fsWrite_cases _ _ _ _ _ hread with rfl | hread2
        · exact Or.inl ⟨api, hapi, rfl⟩
        · exact hinv p c hp hread2
    · exact hinv p c hp
  · exact hinv p c hp

theorem export_content_inv (flags : AzureFlags) (schemas : Str → AzureApiSchema)
    (token : Str) (l' : List AzureApi) :
    ∀ (l : List AzureApi) (st : ExportState), (∀ a ∈ l, a ∈ l') →
      (∀ p c, azureApiproxiesDir <+: p → fsRead st.fs p = some c →
        exportedContent l' c) →
      ∀ p c, azureApiproxiesDir <+: p →
        fsRead ((l.foldl (exportApi flags schemas token) st).fs) p = some c →
        exportedContent l' c
  | [], st, _, hinv => hinv
  | a :: t, st, hsub, hinv => by
    rw [List.foldl_cons]
    exact export_content_inv flags schemas token l' t _
      (fun x hx => hsub x (List.mem_cons_of_mem a hx))
      (exportApi_content flags schemas token st a l'
        (hsub a (List.mem_cons_self a t)) hinv)

theorem azureExport_content (flags : AzureFlags) (env : Str → Str)
    (tok : Str → Str → Str → Str) (apis : AzureApis)
    (schemas : Str → AzureApiSchema) (fs₀ : FS)
    (h0 : ∀ p : FPath, azureApiproxiesDir <+: p → fsRead fs₀ p = none) :
    ∀ p c, azureApiproxiesDir <+: p →
      fsRead ((azureExport flags env tok apis schemas fs₀).fs) p = some c →
      exportedContent apis.Value c := by
  intro p c hp hread
  by_cases hpre : flags.Subscription = [] ∨ flags.ResourceGroup = [] ∨
      flags.ServiceName = [] ∨ resolveToken flags env tok = none
  · rw [azureExport_noop _ _ _ _ _ _ hpre] at hread
    rw [h0 p hp] at hread
    cases hread
  · push_neg at hpre
    obtain ⟨h1, h2, h3, h4⟩ := hpre
    rcases htok : resolveToken flags env tok with _ | token
    · exact absurd htok h4
    · rw [azureExport_run _ _ _ _ _ _ token h1 h2 h3 htok] at hread
      refine export_content_inv flags schemas token apis.Value apis.Value _
        (fun x hx => hx) ?_ p c hp hread
      intro q d hq hrd
      rw [h0 q hq] at hrd
      cases hrd

/-- C1: every CanonicalApi produced by offramping a freshly exported staging
area (no prior azure-area files) comes from some listed PlatformApi, carries
the qualified name with the `-azure` platform tag appended (with a `-`
separator), and its basePath is the source API's base path unchanged. -/
theorem roundtrip_name_basePath (flags : AzureFlags) (env : Str → Str)
    (tok : Str → Str → Str → Str) (apis : AzureApis)
    (schemas : Str → AzureApiSchema) (fs₀ : FS)
    (r : FS × List GeneralApi) (g : GeneralApi)
    (h0 : ∀ p : FPath, azureApiproxiesDir <+: p → fsRead fs₀ p = none)
    (hrun : azureOfframp flags
      ((azureExport flags env tok apis schemas fs₀).fs) = some r)
    (hg : g ∈ r.2) :
    ∃ api ∈ apis.Value,
      g.Name = qualify api.Name api.Properties.ApiVersion ++ "-azure".data ∧
      g.BasePath = api.Properties.Path := by
  obtain ⟨p, hp, a, hname, hread, hbuild⟩ :=
    azureOfframp_mem flags _ r hrun g hg
  unfold readAzureApi at hread
  rcases hfr : fsRead ((azureExport flags env tok apis schemas fs₀).fs) p
    with _ | c
  · rw [hfr] at hread
    have hread' : (if dirExists ((azureExport flags env tok apis schemas fs₀).fs) p
        then some (default : AzureApi) else none) = some a := hread
    split at hread'
    · have ha : a = default := (Option.some.inj hread').symm
      rw [ha] at hname
      exact absurd rfl hname
    · cases hread'
  · rw [hfr] at hread
    have hcontent := azureExport_content flags env tok apis schemas fs₀ h0
      p c hp hfr
    rcases c with a' | s | d | gg | sv
    · have ha : a = a' := (Option.some.inj hread).symm
      subst ha
      rcases hcontent with ⟨api, hapi, hc⟩ | ⟨s, hc⟩ | ⟨d, hc⟩
      · have : a = qualifyApi api := by
          injection hc
        refine ⟨api, hapi, ?_, ?_⟩
        · rw [hbuild]
          show a.Name ++ "-azure".data = _
          rw [this, qualifyApi_Name]
        · rw [hbuild]
          show a.Properties.Path = _
          rw [this, qualifyApi_Path]
      · cases hc
      · cases hc
    · exact absurd ((Option.some.inj hread).symm ▸ rfl) hname
    · exact absurd ((Option.some.inj hread).symm ▸ rfl) hname
    · rcases hcontent with ⟨api, hapi, hc⟩ | ⟨s, hc⟩ | ⟨d, hc⟩ <;> cases hc
    · rcases hcontent with ⟨api, hapi, hc⟩ | ⟨s, hc⟩ | ⟨d, hc⟩ <;> cases hc

/-! ### The offramp run completes whenever the export area can be listed -/

theorem fsRead_isSome_of_mem (fs : FS) (p : FPath) (d : FileContent)
    (h : (p, d) ∈ fs) : (fsRead fs p).isSome = true := by
  induction fs with
  | nil => cases h
  | cons e t ih =>
    rw [fsRead]
    by_cases he : e.1 = p
    · rw [if_pos he]
      rfl
    · rw [if_neg he]
      rcases List.mem_cons.mp h with rfl | hm
      · exact absurd rfl he
      · exact ih hm

theorem childrenOf_spec (fs : FS) (dir : FPath) (f : Str)
    (h : f ∈ childrenOf fs dir) :
    ∃ (rest : List Str) (d : FileContent), (dir ++ f :: rest, d) ∈ fs := by
  unfold childrenOf at h
  rw [List.mem_dedup] at h
  obtain ⟨e, he, hfe⟩ := List.mem_filterMap.mp h
  by_cases hpre : dir <+: e.1
  · rw [if_pos hpre] at hfe
    obtain ⟨t, ht⟩ := hpre
    rw [← ht, List.drop_left] at hfe
    rcases t with _ | ⟨x, rest⟩
    · cases hfe
    · have hx : x = f := Option.some.inj hfe
      rw [hx] at ht
      refine ⟨rest, e.2, ?_⟩
      have he2 : e = (dir ++ f :: rest, e.2) := by
        rw [ht]
      exact he2 ▸ he
  · rw [if_neg hpre] at hfe
    cases hfe

theorem readAzureApi_isSome (F : FS) (p : FPath) (h : canOpen F p = true) :
    ∃ a, readAzureApi F p = some a := by
  unfold readAzureApi
  rcases hfr : fsRead F p with _ | c
  · rcases Bool.or_eq_true_iff.mp h with h1 | h2
    · rw [hfr] at h1
      cases h1
    · refine ⟨default, ?_⟩
      show (if dirExists F p then some (default : AzureApi) else none)
        = some default
      rw [if_pos h2]
  · cases c <;> exact ⟨_, rfl⟩

theorem childrenOf_canOpen (F : FS) (dir : FPath) (f : Str)
    (h : f ∈ childrenOf F dir) : canOpen F (dir ++ [f]) = true := by
  obtain ⟨rest, d, hmem⟩ := childrenOf_spec F dir f h
  rcases rest with _ | ⟨x, rest'⟩
  · unfold canOpen
    rw [fsRead_isSome_of_mem F _ d hmem]
    rfl
  · have hde : dirExists F (dir ++ [f]) = true := by
      refine (dirExists_iff F _).mpr ⟨(dir ++ f :: x :: rest', d), hmem, ?_, ?_⟩
      · exact ⟨x :: rest', by simp⟩
      · simp
    unfold canOpen
    rw [hde]
    simp

theorem foldOpt_total {σ α : Type _} (f : σ → α → Option σ) (I : σ → Prop) :
    ∀ (l : List α), (∀ s a, a ∈ l → I s → ∃ s', f s a = some s' ∧ I s') →
      ∀ st, I st → ∃ st', foldOpt f l st = some st' ∧ I st'
  | [], _, st, h0 => ⟨st, rfl, h0⟩
  | a :: t, hstep, st, h0 => by
    obtain ⟨s1, hs1, hI1⟩ := hstep st a (List.mem_cons_self a t) h0
    obtain ⟨st', hst', hI'⟩ := foldOpt_total f I t
      (fun s b hb hI => hstep s b (List.mem_cons_of_mem a hb) hI) s1 hI1
    refine ⟨st', ?_, hI'⟩
    simp only [foldOpt, hs1]
    exact hst'

theorem offrampFile_total (flags : AzureFlags) (svc : AzureService) (e f : Str)
    (st : FS × List GeneralApi) (F : FS) (hview : azureView st.1 F)
    (hf : f ∈ childrenOf F (azureApiproxiesDir ++ [e])) :
    ∃ st', offrampFile flags svc e st f = some st' ∧ azureView st'.1 F := by
  have hco : canOpen F (azureApiproxiesDir ++ [e] ++ [f]) = true :=
    childrenOf_canOpen F _ f hf
  have hpath : azureApiproxiesDir ++ [e] ++ [f]
      = azureApiproxiesDir ++ [e, f] := by
    simp
  obtain ⟨a, ha⟩ := readAzureApi_isSome F (azureApiproxiesDir ++ [e, f])
    (hpath ▸ hco)
  have ha' : readAzureApi st.1 (azureApiproxiesDir ++ [e, f]) = some a := by
    rw [readAzureApi_view st.1 F _ hview ⟨_, rfl⟩]
    exact ha
  have hsome : ∃ st', offrampFile flags svc e st f = some st' := by
    simp only [offrampFile, ha']
    split
    · split
      · exact ⟨_, rfl⟩
      · exact ⟨_, rfl⟩
    · exact ⟨_, rfl⟩
  obtain ⟨st', hst'⟩ := hsome
  exact ⟨st', hst', (offrampFile_spec flags svc e f st st' F hst' hview).1⟩

theorem offrampGroup_total (flags : AzureFlags) (svc : AzureService) (e : Str)
    (st : FS × List GeneralApi) (F : FS) (hview : azureView st.1 F) :
    ∃ st', offrampGroup flags svc st e = some st' ∧ azureView st'.1 F := by
  unfold offrampGroup
  split
  · have hch : childrenOf st.1 (azureApiproxiesDir ++ [e])
        = childrenOf F (azureApiproxiesDir ++ [e]) :=
      (hview _ ⟨_, rfl⟩).2.2
    rw [hch]
    exact foldOpt_total _ (fun s => azureView s.1 F) _
      (fun s g hg hI => offrampFile_total flags svc e g s F hI hg) st hview
  · exact ⟨st, rfl, hview⟩

theorem azureOfframp_total (flags : AzureFlags) (F : FS)
    (h1 : ¬ flags.Subscription = []) (h2 : ¬ flags.ResourceGroup = [])
    (h3 : ¬ flags.ServiceName = [])
    (hdir : dirExists F azureApiproxiesDir = true) :
    ∃ r, azureOfframp flags F = some r := by
  unfold azureOfframp
  rw [if_neg h1, if_neg h2, if_neg h3, if_neg (by simp [hdir])]
  obtain ⟨r, hr, _⟩ := foldOpt_total
    (offrampGroup flags (readAzureService F (azureServicePath flags)))
    (fun s => azureView s.1 F) (childrenOf F azureApiproxiesDir)
    (fun s e _ hI => offrampGroup_total flags _ e s F hI) (F, [])
    (azureView_refl F)
  exact ⟨r, hr⟩

/-- C7 (amended): when the PlatformService metadata file cannot be opened the
offramp run still completes (given that the export area itself can be
listed), and every produced CanonicalApi has empty owner fields; the
documentation URL however is not empty — only its portal-URL part degrades to
the empty string, leaving `"/api-details#api=" + name`. -/
theorem offramp_absent_service (flags : AzureFlags) (F : FS)
    (h1 : ¬ flags.Subscription = []) (h2 : ¬ flags.ResourceGroup = [])
    (h3 : ¬ flags.ServiceName = [])
    (hdir : dirExists F azureApiproxiesDir = true)
    (hsvc : fsRead F (azureServicePath flags) = none) :
    ∃ r, azureOfframp flags F = some r ∧ ∀ g ∈ r.2,
      g.OwnerEmail = [] ∧ g.OwnerName = [] ∧
      ∃ n : Str, g.Name = n ++ "-azure".data ∧
        g.DocumentationUrl = "/api-details#api=".data ++ n := by
  obtain ⟨r, hr⟩ := azureOfframp_total flags F h1 h2 h3 hdir
  refine ⟨r, hr, ?_⟩
  intro g hg
  obtain ⟨p, hp, a, hname, hread, hbuild⟩ := azureOfframp_mem flags F r hr g hg
  have hsvc0 : readAzureService F (azureServicePath flags) = default := by
    unfold readAzureService
    rw [hsvc]
  rw [hsvc0] at hbuild
  rw [hbuild]
  exact ⟨rfl, rfl, a.Name, rfl, rfl⟩

theorem roundtrip_name_basePath_witness :
    ∃ api ∈ (⟨[apiW]⟩ : AzureApis).Value,
      (offrampRW.2.headD default).Name
        = qualify api.Name api.Properties.ApiVersion ++ "-azure".data ∧
      (offrampRW.2.headD default).BasePath = api.Properties.Path :=
  roundtrip_name_basePath flagsW envW tokW ⟨[apiW]⟩ schemasW [] offrampRW
    (offrampRW.2.headD default) (fun _ _ => rfl) (by decide) (by decide)

/-- C7 counterexample: offramping the staging area produced by `expW` — whose
service-metadata file is absent — completes and yields exactly one
CanonicalApi, whose documentationUrl is `"/api-details#api=orders-v2"`,
not the empty string (the claim asserts it would be empty). -/
theorem offramp_absent_service_counterexample :
    fsRead expW.fs (azureServicePath flagsW) = none
    ∧ (azureOfframp flagsW expW.fs).isSome = true
    ∧ offrampRW.2.map (fun g => g.DocumentationUrl)
      = ["/api-details#api=orders-v2".data]
    ∧ offrampRW.2.map (fun g => (g.OwnerEmail, g.OwnerName)) = [([], [])]
    ∧ "/api-details#api=orders-v2".data ≠ ([] : Str) := by
  decide

theorem offramp_absent_service_witness :
    ∃ r, azureOfframp flagsW expW.fs = some r ∧ ∀ g ∈ r.2,
      g.OwnerEmail = [] ∧ g.OwnerName = [] ∧
      ∃ n : Str, g.Name = n ++ "-azure".data ∧
        g.DocumentationUrl = "/api-details#api=".data ++ n :=
  offramp_absent_service flagsW expW.fs (by decide) (by decide) (by decide)
    (by decide) (by decide)

/-- C8 counterexample: the offramp inserts a `"/"` between the service
gateway URL and the base path, so for base path `/orders` the canonical
gateway URL is `https://gw//orders`, not the plain concatenation
`https://gw/orders` the claim predicts. -/
theorem gatewayUrl_counterexample :
    (buildGeneralApi flagsW svcC8 apiC8).GatewayUrl = "https://gw//orders".data
    ∧ (buildGeneralApi flagsW svcC8 apiC8).GatewayUrl
      ≠ svcC8.Properties.GatewayUrl ++ apiC8.Properties.Path
    ∧ svcC8.Properties.GatewayUrl ++ apiC8.Properties.Path
      = "https://gw/orders".data := by
  decide

/-- C8 (amended): for every offramped API the canonical gatewayUrl is the
PlatformService gateway URL, a `"/"` separator, then the API's base path —
plain concatenation holds only when the separator is counted; the basePath
itself is copied across unchanged. -/
theorem gatewayUrl_spec (flags : AzureFlags) (svc : AzureService)
    (api : AzureApi) :
    (buildGeneralApi flags svc api).GatewayUrl
      = svc.Properties.GatewayUrl ++ "/".data ++ api.Properties.Path
    ∧ (buildGeneralApi flags svc api).BasePath = api.Properties.Path :=
  ⟨rfl, rfl⟩

/-- C10: whenever the sync endpoint produces a response — whatever offramp and
onramp tags were selected and whatever the invoked operations did — the
response's result field is `true` and its message reports a successful sync;
the boolean never reflects a failure. -/
theorem apimSync_always_success (env : Str → Str)
    (getAzureToken : Str → Str → Str → Str) (apis : AzureApis)
    (schemas : Str → AzureApiSchema)
    (awsExportRun awsOfframpRun apiHubOnrampRun apiHubImportRun : FS → FS × Bool)
    (fs : FS) (input : ApimSyncInput) (out : ApimSyncOutput) (fs' : FS)
    (h : apimSync env getAzureToken apis schemas awsExportRun awsOfframpRun
      apiHubOnrampRun apiHubImportRun fs input = some (out, fs')) :
    out.Result = true ∧
    out.Message = "Sync from ".data ++ input.Offramp ++ " to ".data ++
      input.Onramp ++ " successful!".data := by
  simp only [apimSync] at h
  split at h
  · cases h
  · cases h
    exact ⟨rfl, rfl⟩

theorem apimSync_always_success_witness :
    syncOutW.Result = true ∧
    syncOutW.Message = "Sync from ".data ++ syncInputW.Offramp ++ " to ".data ++
      syncInputW.Onramp ++ " successful!".data :=
  apimSync_always_success envW tokW ⟨[]⟩ schemasW runIdW runIdW runIdW runIdW
    [] syncInputW syncOutW [] (by decide)
